import Mathlib

/-!
# Verification of the a2ui_a2a_inspector streaming orchestration core

This file gives a shallow embedding, in Lean 4, of the parts of the
repository that the specification's claims are about:

* the delta accumulator, retry block and ReAct turn loop of
  `src/agent/main.py` (`ITServiceAgentExecutor.execute`),
* the tool registry of `src/agent/tools.py`,
* the envelope converter `HostAgent.convert_to_a2ui` of
  `src/backend/core/a2a_host.py` and the root-component construction of
  `src/backend/core/a2ui_generator.py`.

Python strings are modelled as `String`, `None`-able strings as
`Option String`, and Python truthiness of an optional string `o` as
`o.getD "" ≠ ""` (both `None` and `""` are falsy).  Dictionaries keyed by
integers are modelled as association lists in insertion order, matching
CPython's dict iteration order.  Calls to `uuid.uuid4()` are modelled by
explicit parameters supplying the generated identifier strings.
-/

namespace A2AInspector

/-- One tool-call fragment of a streamed generation delta
(`tool_call` in `src/agent/main.py` lines 220-241): an integer `index`
and optional partial `id`, function `name` and function `arguments`. -/
structure ToolFragment where
  index : Nat
  id : Option String
  name : Option String
  arguments : Option String
  deriving DecidableEq, Repr

/-- One streamed generation delta (`chunk.choices[0].delta` in
`src/agent/main.py` lines 207-241): optional text `content` and a list of
tool-call fragments (`delta.tool_calls`, possibly empty, modelled as the
empty list when the attribute is `None`). -/
structure Delta where
  content : Option String
  tool_calls : List ToolFragment
  deriving DecidableEq, Repr

/-- The per-index accumulator entry built at `src/agent/main.py` lines
224-241: `{"id": ..., "type": "function", "function": {"name": ...,
"arguments": ...}}`.  The constant `"type"` field is omitted. -/
structure Slot where
  id : Option String
  name : String
  arguments : String
  deriving DecidableEq, Repr

/-- The loop-local accumulation state of one generation attempt
(`src/agent/main.py` lines 192-193): `current_content` and
`tool_calls_accumulator` (a dict from index to slot, kept here as an
association list in insertion order). -/
structure AccState where
  content : String
  acc : List (Nat × Slot)
  deriving DecidableEq, Repr

/-- A completed tool call as reconstructed at `src/agent/main.py`
lines 254-264. -/
structure ToolCall where
  id : String
  name : String
  arguments : String
  deriving DecidableEq, Repr

/-- The completed assistant turn of one attempt: `current_content`
plus the reconstructed `tool_calls` list
(`completed_message` at `src/agent/main.py` lines 249-267). -/
structure AccumulatedTurn where
  text : String
  tool_calls : List ToolCall
  deriving DecidableEq, Repr

/-- Python truthiness of an optional string: `None` and `""` are falsy. -/
def truthy (o : Option String) : Bool := o.getD "" != ""

/-- First value bound to a key in the association list, mirroring a
Python dict lookup `tool_calls_accumulator[index]`. -/
def lookupSlot (i : Nat) : List (Nat × Slot) → Option Slot
  | [] => none
  | (j, s) :: rest => if j = i then some s else lookupSlot i rest

/-- The slot established when an index is seen for the first time
(`src/agent/main.py` lines 224-232): the fragment's `id` verbatim and
`name or ""` / `arguments or ""`. -/
def establish (f : ToolFragment) : Slot :=
  { id := f.id, name := f.name.getD "", arguments := f.arguments.getD "" }

/-- The appending update of an existing slot (`src/agent/main.py`
lines 233-238): append `name` when truthy, append `arguments` when
truthy; never replace. -/
def appendFrag (s : Slot) (f : ToolFragment) : Slot :=
  let s1 := if truthy f.name then { s with name := s.name ++ f.name.getD "" } else s
  if truthy f.arguments then { s1 with arguments := s1.arguments ++ f.arguments.getD "" } else s1

/-- The id backfill (`src/agent/main.py` lines 240-241): when the
fragment carries a truthy id and the slot's id is falsy, store the
fragment's id. -/
def backfill (s : Slot) (f : ToolFragment) : Slot :=
  if truthy f.id ∧ ¬ truthy s.id then { s with id := f.id } else s

/-- The full update applied to an already-established slot by one further
fragment of its index: the appending update followed by the id backfill
(`src/agent/main.py` lines 233-241). -/
def stepSlot (s : Slot) (f : ToolFragment) : Slot :=
  backfill (appendFrag s f) f

/-- The slot stored when an index is first seen: the established slot,
followed by the (vacuous there) id backfill of lines 240-241. -/
def firstSlot (f : ToolFragment) : Slot :=
  backfill (establish f) f

/-- In-place update of the dict entry with key `k` by `g`, rendered
functionally: every other entry is unchanged. -/
def updPair (k : Nat) (g : Slot → Slot) (p : Nat × Slot) : Nat × Slot :=
  if p.1 = k then (p.1, g p.2) else p

/-- Processing of one tool-call fragment against the accumulator dict
(`src/agent/main.py` lines 221-241): establish on first sight, append
afterwards, then backfill the id in either case. -/
def applyFrag (acc : List (Nat × Slot)) (f : ToolFragment) : List (Nat × Slot) :=
  match lookupSlot f.index acc with
  | none => acc ++ [(f.index, firstSlot f)]
  | some _ => acc.map (updPair f.index fun s => stepSlot s f)

/-- Processing of one streamed delta (`src/agent/main.py` lines
207-241): concatenate truthy text content, then fold the delta's
tool-call fragments into the accumulator. -/
def applyDelta (st : AccState) (d : Delta) : AccState :=
  { content := if truthy d.content then st.content ++ d.content.getD "" else st.content
    acc := d.tool_calls.foldl applyFrag st.acc }

/-- Folding a whole attempt's delta sequence, starting from the empty
accumulators initialised at the top of each attempt
(`src/agent/main.py` lines 192-193). -/
def accumulate (ds : List Delta) : AccState :=
  ds.foldl applyDelta { content := "", acc := [] }

/-- The keys of the accumulator dict in ascending order:
`sorted(tool_calls_accumulator.keys())` at `src/agent/main.py` line 255. -/
def sortedKeys (acc : List (Nat × Slot)) : List Nat :=
  List.insertionSort (· ≤ ·) (acc.map Prod.fst)

/-- One reconstructed tool call (`src/agent/main.py` lines 257-264):
`tc_data["id"] or f"call_{uuid.uuid4()}"` plus the accumulated name and
argument text.  `u` is the uuid string generated for this call when the
accumulated id is falsy. -/
def mkCall (s : Slot) (u : String) : ToolCall :=
  { id := if truthy s.id then s.id.getD "" else "call_" ++ u
    name := s.name
    arguments := s.arguments }

/-- The finalisation loop over the sorted keys (`src/agent/main.py`
lines 254-264).  `fresh j` is the uuid generated for the `j`-th call of
the batch; a key always present in the dict, so the `none` branch is
unreachable and yields a dummy slot. -/
def finalizeGo (acc : List (Nat × Slot)) (fresh : Nat → String) : List Nat → Nat → List ToolCall
  | [], _ => []
  | i :: rest, j =>
      (match lookupSlot i acc with
       | some s => mkCall s (fresh j)
       | none => mkCall { id := none, name := "", arguments := "" } (fresh j))
      :: finalizeGo acc fresh rest (j + 1)

/-- The reconstructed `tool_calls` list (`src/agent/main.py` lines
254-264): the accumulator's slots in ascending key order. -/
def finalizeCalls (acc : List (Nat × Slot)) (fresh : Nat → String) : List ToolCall :=
  finalizeGo acc fresh (sortedKeys acc) 0

/-- The completed assistant turn produced from a successfully consumed
stream (`src/agent/main.py` lines 249-267). -/
def finalTurn (ds : List Delta) (fresh : Nat → String) : AccumulatedTurn :=
  { text := (accumulate ds).content
    tool_calls := finalizeCalls (accumulate ds).acc fresh }

/-! ## Projections of a delta stream

These definitions name the order-theoretic content of a delta sequence:
the concatenated text, the flattened fragment stream, and the
subsequence of fragments belonging to one index.  The lemmas below show
that the imperative accumulator of `execute` computes exactly these. -/

/-- Concatenation of a list of strings in order. -/
def concatAll : List String → String
  | [] => ""
  | s :: rest => s ++ concatAll rest

/-- The flattened stream of tool-call fragments of a delta sequence,
in arrival order. -/
def fragsOf (ds : List Delta) : List ToolFragment :=
  (ds.map Delta.tool_calls).flatten

/-- The subsequence of fragments bearing index `i`, in arrival order. -/
def fragsAt (i : Nat) (ds : List Delta) : List ToolFragment :=
  (fragsOf ds).filter fun f => f.index = i

/-- One fragment's effect on the (possibly not yet established) slot of
its index. -/
def updSlot (o : Option Slot) (f : ToolFragment) : Slot :=
  match o with
  | some s => stepSlot s f
  | none => firstSlot f

/-- Folding a fragment subsequence into the slot of one index. -/
def slotFold (o : Option Slot) (fs : List ToolFragment) : Option Slot :=
  fs.foldl (fun o f => some (updSlot o f)) o

/-- The slot an index's fragment subsequence accumulates to (`none`
when the index never occurs). -/
def slotOf (fs : List ToolFragment) : Option Slot :=
  slotFold none fs

/-- The first truthy id carried by a fragment subsequence: the id the
accumulator establishes at first sight or backfills later. -/
def resolveId : List ToolFragment → Option String
  | [] => none
  | f :: rest => if truthy f.id then f.id else resolveId rest

/-- The concatenated name contributions of a fragment subsequence. -/
def namesJoined (fs : List ToolFragment) : String :=
  concatAll (fs.map fun f => f.name.getD "")

/-- The concatenated argument-text contributions of a fragment
subsequence. -/
def argsJoined (fs : List ToolFragment) : String :=
  concatAll (fs.map fun f => f.arguments.getD "")

/-- One fold step on the key list: a fresh index is appended, a known
index leaves the keys unchanged. -/
def keyStep (ks : List Nat) (i : Nat) : List Nat :=
  if i ∈ ks then ks else ks ++ [i]

/-- The key list accumulated over a fragment stream. -/
def keyFold (ks : List Nat) (fs : List ToolFragment) : List Nat :=
  fs.foldl (fun ks f => keyStep ks f.index) ks

/-! ## Normal form of the finalised tool-call list -/

/-- The completed tool call determined by one index's fragment
subsequence alone (plus the uuid used when no fragment carried an id). -/
def normCall (fs : List ToolFragment) (u : String) : ToolCall :=
  match slotOf fs with
  | some s => mkCall s u
  | none => mkCall { id := none, name := "", arguments := "" } u

/-- The finalised call list rebuilt from per-index projections of the
delta stream, over an explicit key list. -/
def normGo (ds : List Delta) (fresh : Nat → String) : List Nat → Nat → List ToolCall
  | [], _ => []
  | i :: rest, j => normCall (fragsAt i ds) (fresh j) :: normGo ds fresh rest (j + 1)

/-- `f` is split into the consecutive fragments `f1` then `f2`: same
index, the id carried by the first half, name and argument text cut in
two. -/
structure FragSplit (f f1 f2 : ToolFragment) : Prop where
  idx1 : f1.index = f.index
  idx2 : f2.index = f.index
  id1 : f1.id = f.id
  id2 : truthy f2.id = false
  name_eq : f1.name.getD "" ++ f2.name.getD "" = f.name.getD ""
  args_eq : f1.arguments.getD "" ++ f2.arguments.getD "" = f.arguments.getD ""

/-- A cut of one delta's fragment list into the two halves of the split:
either at a fragment boundary, or through the middle of one fragment. -/
inductive FragsCut : List ToolFragment → List ToolFragment → List ToolFragment → Prop where
  | boundary (l1 l2 : List ToolFragment) : FragsCut (l1 ++ l2) l1 l2
  | mid (l1 : List ToolFragment) (f f1 f2 : ToolFragment) (l2 : List ToolFragment) :
      FragSplit f f1 f2 → FragsCut (l1 ++ f :: l2) (l1 ++ [f1]) (f2 :: l2)

/-- `d` is split into the two consecutive deltas `d1` then `d2`: the
text content is cut in two and the fragment list is cut in two. -/
structure DeltaSplit (d d1 d2 : Delta) : Prop where
  content_eq : d1.content.getD "" ++ d2.content.getD "" = d.content.getD ""
  frags : FragsCut d.tool_calls d1.tool_calls d2.tool_calls

/-! ## The retry block of `execute`

`src/agent/main.py` lines 126-310.  One call of the generation
capability (`acompletion` plus full consumption of its stream) either
succeeds with a delta sequence, raises a transient error
(`litellm.RateLimitError` / `litellm.ServiceUnavailableError`, possibly
after some deltas were already consumed), or raises any other error. -/

/-- What one call of the generation capability does. -/
inductive AttemptOutcome where
  | success (deltas : List Delta)
  | transientFailure (droppedDeltas : List Delta)
  | fatalFailure (droppedDeltas : List Delta)
  deriving DecidableEq, Repr

/-- A user-visible event enqueued on the event queue. -/
inductive AgentEvent where
  | retryNotice (waitSeconds : Nat)
  | answer (text : String)
  | toolCallNotice (name arguments : String)
  | toolResultNotice (name result : String)
  | errorNotice (text : String)
  deriving DecidableEq, Repr

/-- Is this event the user-visible "retrying" notice of
`src/agent/main.py` lines 286-291? -/
def isRetryNotice : AgentEvent → Bool
  | .retryNotice _ => true
  | _ => false

/-- Is this event the final-answer notice of `src/agent/main.py`
lines 328-333? -/
def isAnswer : AgentEvent → Bool
  | .answer _ => true
  | _ => false

/-- The exponential-backoff wait the dead handler at line 283 would
compute: `min(retry_delay * (2 ** attempt), 60)` with `retry_delay = 4`. -/
def backoffWait (attempt : Nat) : Nat :=
  min (4 * 2 ^ attempt) 60

/-- The `for attempt in range(max_retries)` block of
`src/agent/main.py` lines 175-310, driven by the successive outcomes
the generation capability produces.

Control flow of the source: the `try` body (lines 176-273) either
breaks out of the loop with a completed message, or raises.  The
handlers are checked in order, and the FIRST one (line 274) is
`except Exception as e: ... raise e`.  `litellm.RateLimitError` and
`litellm.ServiceUnavailableError` both subclass `Exception`, so every
error raised in the `try` body — transient or not — is caught by the
line-274 handler and immediately re-raised; the backoff/retry handler
at lines 278-307 (which would emit a `retryNotice`, sleep
`backoffWait attempt` seconds and continue the loop) is unreachable.
The re-raised error propagates out of the `for` loop to the outer
`while` loop's handler at lines 391-400.  Consequently the loop never
performs a second iteration: the first outcome decides. -/
def retryBlock : Nat → List AttemptOutcome → Except String AccState
  | 0, _ => .error "retry loop exhausted"
  | _ + 1, [] => .error "no generation outcome"
  | _ + 1, o :: _ =>
      match o with
      | .success ds => .ok (accumulate ds)
      | .transientFailure _ => .error "rate limit or service unavailable"
      | .fatalFailure _ => .error "llm failure"

/-- `max_retries = 5` (`src/agent/main.py` line 129). -/
def maxRetries : Nat := 5

/-- The generation phase of one turn-loop iteration: the retry block
together with the outer `except` of the `while` loop
(`src/agent/main.py` lines 391-400), which turns a propagated error
into a single user-visible error notice and ends the run.  Returns the
events emitted during the phase and the accumulation state when
generation succeeded. -/
def generatePhase (outcomes : List AttemptOutcome) : List AgentEvent × Option AccState :=
  match retryBlock maxRetries outcomes with
  | .ok st => ([], some st)
  | .error e => ([.errorNotice ("I encountered an error: " ++ e)], none)

/-! ## Tool dispatch and the ReAct turn loop

`src/agent/main.py` lines 126-400 (dispatch: lines 339-387). -/

/-- A Python value as produced by `json.loads`. -/
inductive PyVal where
  | null
  | bool (b : Bool)
  | int (n : Int)
  | str (s : String)
  | list (xs : List PyVal)
  | dict (kvs : List (String × PyVal))

/-- The keys of `available_functions` in `src/agent/tools.py`
lines 171-182. -/
def availableFunctionNames : List String :=
  ["vm_provisioning", "sap_access_request", "check_ticket_status",
   "create_web_app", "request_rbac_access", "validate_vm_provisioning",
   "validate_web_app_creation", "validate_rbac_request", "validate_sap_request"]

/-- The not-found result string of `src/agent/main.py` line 365. -/
def toolNotFoundMsg (name : String) : String :=
  "Error: Tool " ++ name ++ " not found"

/-- The caught-exception result string of `src/agent/main.py`
line 367. -/
def execErrorMsg (m : String) : String :=
  "Error executing tool: " ++ m

/-- The dispatch of one tool call (`src/agent/main.py` lines 356-367):
parse the argument text (`json.loads`, whose raising is modelled by
`.error`), then look the name up in `available_functions`; an absent
name yields the not-found string, a parse failure or a raising tool
yields the caught-exception string.  `loads` stands for `json.loads`
and `impl` for the tool functions of `src/agent/tools.py` (their
results are opaque strings here; a `.error` result models a raised
exception, including the `TypeError` of unpacking a non-mapping). -/
def dispatchResult (loads : String → Except String PyVal)
    (impl : String → List (String × PyVal) → Except String String)
    (name args : String) : String :=
  match loads args with
  | .error m => execErrorMsg m
  | .ok v =>
      if name ∈ availableFunctionNames then
        match v with
        | .dict kw =>
            match impl name kw with
            | .ok r => r
            | .error m => execErrorMsg m
        | _ => execErrorMsg "argument of type PyVal is not a mapping"
      else toolNotFoundMsg name

/-- One message of the `messages` list driving the conversation. -/
inductive ChatMsg where
  | system (content : String)
  | user (content : String)
  | assistant (content : String) (tool_calls : List ToolCall)
  | tool (tool_call_id : String) (name : String) (content : String)

/-- Dispatch of one tool call with its two user-visible notices
(`src/agent/main.py` lines 344-387) and the tool-result message
appended to the conversation. -/
def dispatchOne (loads : String → Except String PyVal)
    (impl : String → List (String × PyVal) → Except String String)
    (tc : ToolCall) : List AgentEvent × ChatMsg :=
  let resp := dispatchResult loads impl tc.name tc.arguments
  ([.toolCallNotice tc.name tc.arguments, .toolResultNotice tc.name resp],
   .tool tc.id tc.name resp)

/-- Dispatch of a whole batch of tool calls in list order
(`for tc in tool_calls`, `src/agent/main.py` line 339). -/
def dispatchBatch (loads : String → Except String PyVal)
    (impl : String → List (String × PyVal) → Except String String) :
    List ToolCall → List AgentEvent × List ChatMsg
  | [] => ([], [])
  | tc :: rest =>
      let r1 := dispatchOne loads impl tc
      let r2 := dispatchBatch loads impl rest
      (r1.1 ++ r2.1, r1.2 :: r2.2)

/-- The completed assistant turn a successful generation phase hands to
the loop body: `current_content` and the reconstructed `tool_calls`. -/
structure GenTurn where
  text : String
  calls : List ToolCall

/-- Result of running the turn loop: the emitted events, the final
conversation, and whether the loop terminated through the
no-tool-calls `break` of `src/agent/main.py` line 335. -/
structure LoopResult where
  events : List AgentEvent
  messages : List ChatMsg
  finished : Bool

/-- The `while True` ReAct loop of `src/agent/main.py` lines 126-400,
at the granularity of completed generation turns: each iteration
appends the assistant turn; with zero tool calls it emits the
accumulated text as the final answer notice and breaks (lines
325-335); otherwise it dispatches every call, appends the tool-result
messages and re-enters generation (lines 337-389).  The `script` lists
the successive turns the generation capability completes; an exhausted
script means the capability's behaviour is not specified further and
the run is left unfinished. -/
def turnLoop (loads : String → Except String PyVal)
    (impl : String → List (String × PyVal) → Except String String) :
    List GenTurn → List ChatMsg → LoopResult
  | [], msgs => ⟨[], msgs, false⟩
  | g :: rest, msgs =>
      let msgs1 := msgs ++ [ChatMsg.assistant g.text g.calls]
      if g.calls.isEmpty then
        ⟨[.answer g.text], msgs1, true⟩
      else
        let d := dispatchBatch loads impl g.calls
        let r := turnLoop loads impl rest (msgs1 ++ d.2)
        ⟨d.1 ++ r.events, r.messages, r.finished⟩

/-! ## A concrete model of `json.loads`

Used only to give the universally-quantified dispatch theorems a
concrete instance.  It implements JSON objects, arrays, strings with
the single-character escapes, integers, booleans and null; floats and
`\u` escapes are outside the model (the argument texts considered in
this development use none).  A `.error` result models a raised
`json.JSONDecodeError`. -/

/-- Accepted whitespace is dropped before every token. -/
def eatSpace : List Char → List Char
  | ch :: tl => if ch = ' ' ∨ ch = '\t' ∨ ch = '\n' ∨ ch = '\r' then eatSpace tl else ch :: tl
  | [] => []

/-- Meaning of a backslash escape inside a JSON string literal. -/
def escMap (e : Char) : Option Char :=
  match e with
  | 'n' => some '\n'
  | 't' => some '\t'
  | 'r' => some '\r'
  | '"' => some '"'
  | '\\' => some '\\'
  | '/' => some '/'
  | 'b' => some (Char.ofNat 8)
  | 'f' => some (Char.ofNat 12)
  | _ => none

/-- Body of a JSON string literal, read up to (and consuming) the
closing quote. -/
def readQuoted : List Char → Option (String × List Char)
  | [] => none
  | '"' :: tl => some ("", tl)
  | '\\' :: e :: tl =>
      match escMap e, readQuoted tl with
      | some ch, some q => some (String.mk (ch :: q.1.data), q.2)
      | _, _ => none
  | ch :: tl => (readQuoted tl).map fun q => (String.mk (ch :: q.1.data), q.2)

/-- A non-empty digit run, as a number. -/
def readNat (src : List Char) : Option (Nat × List Char) :=
  match src.span Char.isDigit with
  | ([], _) => none
  | (ds, tl) => some (ds.foldl (fun n ch => 10 * n + (ch.toNat - 48)) 0, tl)

mutual

/-- One JSON value.  The fuel argument only bounds nesting depth, which
`jsonLoads` instantiates above the input length. -/
def readValue (fuel : Nat) (src : List Char) : Option (PyVal × List Char) :=
  match fuel with
  | 0 => none
  | k + 1 =>
      match eatSpace src with
      | 'n' :: 'u' :: 'l' :: 'l' :: tl => some (.null, tl)
      | 't' :: 'r' :: 'u' :: 'e' :: tl => some (.bool true, tl)
      | 'f' :: 'a' :: 'l' :: 's' :: 'e' :: tl => some (.bool false, tl)
      | '"' :: tl => (readQuoted tl).map fun q => (.str q.1, q.2)
      | '[' :: tl =>
          (match eatSpace tl with
           | ']' :: tl2 => some (.list [], tl2)
           | other => (readItems k other).map fun q => (.list q.1, q.2))
      | '\x7b' :: tl =>
          (match eatSpace tl with
           | '\x7d' :: tl2 => some (.dict [], tl2)
           | other => (readPairs k other).map fun q => (.dict q.1, q.2))
      | '-' :: tl => (readNat tl).map fun q => (.int (-(q.1 : Int)), q.2)
      | ch :: tl =>
          if ch.isDigit then (readNat (ch :: tl)).map fun q => (.int (q.1 : Int), q.2)
          else none
      | [] => none

/-- The elements of a non-empty JSON array, up to the closing bracket. -/
def readItems (fuel : Nat) (src : List Char) : Option (List PyVal × List Char) :=
  match fuel with
  | 0 => none
  | k + 1 =>
      match readValue k src with
      | Option.none => none
      | some (v, tl) =>
          match eatSpace tl with
          | ']' :: tl2 => some ([v], tl2)
          | ',' :: tl2 => (readItems k tl2).map fun q => (v :: q.1, q.2)
          | _ => none

/-- The members of a non-empty JSON object, up to the closing brace. -/
def readPairs (fuel : Nat) (src : List Char) : Option (List (String × PyVal) × List Char) :=
  match fuel with
  | 0 => none
  | k + 1 =>
      match eatSpace src with
      | '"' :: tl =>
          (match readQuoted tl with
           | Option.none => none
           | some (key, tl2) =>
               match eatSpace tl2 with
               | ':' :: tl3 =>
                   (match readValue k tl3 with
                    | Option.none => none
                    | some (v, tl4) =>
                        match eatSpace tl4 with
                        | '\x7d' :: tl5 => some ([(key, v)], tl5)
                        | ',' :: tl5 => (readPairs k tl5).map fun q => ((key, v) :: q.1, q.2)
                        | _ => none)
               | _ => none)
      | _ => none

end

/-- Model of Python `json.loads` on the JSON subset described above. -/
def jsonLoads (s : String) : Except String PyVal :=
  match readValue (s.length + 1) s.data with
  | Option.none => .error "Expecting value"
  | some (v, tl) =>
      match eatSpace tl with
      | [] => .ok v
      | _ => .error "Extra data"

/-! ## The envelope converter

`HostAgent.convert_to_a2ui` (`src/backend/core/a2a_host.py` lines
222-305) and the root construction of `A2UIGenerator`
(`src/backend/core/a2ui_generator.py` lines 209-266). -/

/-- The fields of the internal agent-response dict that
`convert_to_a2ui` reads: `output["text"]` when the `"text"` key is
present, the `str(output)` fallback rendering otherwise, the metadata
`"type"` entry, and the optional `message_id`. -/
structure AgentResponse where
  output_text : Option String
  output_str : String
  metadata_type : Option String
  message_id : Option String

/-- Payload of an envelope component: a `Text` component
(`{"text": {"literalString": ...}}` with optional `usageHint`) or a
`Column` with an explicit child list. -/
inductive ComponentBody where
  | textLit (literalString : String) (usageHint : Option String)
  | column (children : List String)
  deriving DecidableEq, Repr

/-- An envelope component: stable identifier plus payload. -/
structure Component where
  id : String
  body : ComponentBody
  deriving DecidableEq, Repr

/-- A `surfaceUpdate` envelope: its component list. -/
structure Envelope where
  components : List Component
  deriving DecidableEq, Repr

/-- The usage hint derived from the message type
(`src/backend/core/a2a_host.py` lines 246-265). -/
def usageHintFor (msg_type : String) : Option String :=
  if msg_type = "thinking" then some "subtle"
  else if msg_type = "tool_call" then some "code"
  else if msg_type = "tool_result" then some "code"
  else if msg_type = "error" then some "error"
  else none

/-- The identifier of the literal-text component
(`src/backend/core/a2a_host.py` lines 239-243): `"msg_" + message_id`
when the response carries a truthy message id, else `"msg_" + uuid`.
`freshId` models the `uuid.uuid4()` value. -/
def msgIdFor (r : AgentResponse) (freshId : String) : String :=
  if truthy r.message_id then "msg_" ++ r.message_id.getD ""
  else "msg_" ++ freshId

/-- `HostAgent.convert_to_a2ui` (`src/backend/core/a2a_host.py` lines
222-305): one literal-text component carrying the response text and
the derived usage hint, followed by the root `Column` whose explicit
child list is the text component's identifier. -/
def convertToA2ui (r : AgentResponse) (freshId : String) : Envelope :=
  let text_content := match r.output_text with
    | some t => t
    | none => r.output_str
  let msg_id := msgIdFor r freshId
  ⟨[⟨msg_id, .textLit text_content (usageHintFor (r.metadata_type.getD "text"))⟩,
    ⟨"root", .column [msg_id]⟩]⟩

/-- `A2UIGenerator.create_root_component`
(`src/backend/core/a2ui_generator.py` lines 209-228). -/
def createRootComponent (child_ids : List String) : Component :=
  ⟨"root", .column child_ids⟩

/-- The envelope assembly of `A2UIGenerator.generate_envelope`
(`src/backend/core/a2ui_generator.py` lines 247-266), applied to the
component list the LLM returned (after line 188's id backfill, so every
component already carries an id): extract the ids, build the root, and
append it. -/
def generateEnvelope (components : List Component) : Envelope :=
  ⟨components ++ [createRootComponent (components.map Component.id)]⟩

/-- The explicit child list of the root component of an envelope
(empty when no component has id `"root"`). -/
def rootChildren (env : Envelope) : List String :=
  match env.components.find? (fun c => c.id = "root") with
  | some ⟨_, .column children⟩ => children
  | _ => []

/-! ## Lemmas and claim theorems -/

theorem truthy_false (o : Option String) (h : ¬ truthy o = true) : o.getD "" = "" := by
  simpa [truthy] using h

theorem appendFrag_name (s : Slot) (f : ToolFragment) :
    (appendFrag s f).name = s.name ++ f.name.getD "" := by
  unfold appendFrag
  by_cases h1 : truthy f.name = true <;> by_cases h2 : truthy f.arguments = true <;>
    simp [h1, h2, truthy_false, String.append_empty]

theorem appendFrag_arguments (s : Slot) (f : ToolFragment) :
    (appendFrag s f).arguments = s.arguments ++ f.arguments.getD "" := by
  unfold appendFrag
  by_cases h1 : truthy f.name = true <;> by_cases h2 : truthy f.arguments = true <;>
    simp [h1, h2, truthy_false, String.append_empty]

theorem appendFrag_id (s : Slot) (f : ToolFragment) :
    (appendFrag s f).id = s.id := by
  unfold appendFrag
  by_cases h1 : truthy f.name = true <;> by_cases h2 : truthy f.arguments = true <;>
    simp [h1, h2]

theorem backfill_name (s : Slot) (f : ToolFragment) :
    (backfill s f).name = s.name := by
  unfold backfill; split <;> rfl

theorem backfill_arguments (s : Slot) (f : ToolFragment) :
    (backfill s f).arguments = s.arguments := by
  unfold backfill; split <;> rfl

theorem backfill_id (s : Slot) (f : ToolFragment) :
    (backfill s f).id = if truthy f.id ∧ ¬ truthy s.id then f.id else s.id := by
  unfold backfill; split <;> simp_all

theorem stepSlot_name (s : Slot) (f : ToolFragment) :
    (stepSlot s f).name = s.name ++ f.name.getD "" := by
  rw [stepSlot, backfill_name, appendFrag_name]

theorem stepSlot_arguments (s : Slot) (f : ToolFragment) :
    (stepSlot s f).arguments = s.arguments ++ f.arguments.getD "" := by
  rw [stepSlot, backfill_arguments, appendFrag_arguments]

theorem stepSlot_id (s : Slot) (f : ToolFragment) :
    (stepSlot s f).id = if truthy f.id ∧ ¬ truthy s.id then f.id else s.id := by
  rw [stepSlot, backfill_id, appendFrag_id]

theorem firstSlot_eq_establish (f : ToolFragment) : firstSlot f = establish f := by
  unfold firstSlot backfill establish
  split <;> simp_all

theorem foldl_stepSlot_name (fs : List ToolFragment) (s : Slot) :
    (fs.foldl stepSlot s).name = s.name ++ concatAll (fs.map fun f => f.name.getD "") := by
  induction fs generalizing s with
  | nil => simp [concatAll, String.append_empty]
  | cons f fs ih => simp [concatAll, ih, stepSlot_name, String.append_assoc]

theorem foldl_stepSlot_arguments (fs : List ToolFragment) (s : Slot) :
    (fs.foldl stepSlot s).arguments =
      s.arguments ++ concatAll (fs.map fun f => f.arguments.getD "") := by
  induction fs generalizing s with
  | nil => simp [concatAll, String.append_empty]
  | cons f fs ih => simp [concatAll, ih, stepSlot_arguments, String.append_assoc]

theorem foldl_stepSlot_id (fs : List ToolFragment) (s : Slot) :
    (fs.foldl stepSlot s).id.getD "" =
      if truthy s.id then s.id.getD "" else (resolveId fs).getD "" := by
  induction fs generalizing s with
  | nil =>
      by_cases h : truthy s.id = true
      · simp [h]
      · simp [h, resolveId, truthy_false s.id h]
  | cons f fs ih =>
      by_cases hs : truthy s.id = true
      · have hid : (stepSlot s f).id = s.id := by rw [stepSlot_id]; simp [hs]
        simp only [List.foldl_cons, ih, hid, hs, if_true]
      · by_cases hf : truthy f.id = true
        · have hid : (stepSlot s f).id = f.id := by rw [stepSlot_id]; simp [hs, hf]
          simp [List.foldl_cons, ih, hid, hs, hf, resolveId]
        · have hid : (stepSlot s f).id = s.id := by rw [stepSlot_id]; simp [hf]
          simp [List.foldl_cons, ih, hid, hs, hf, resolveId]

theorem resolveId_truthy (fs : List ToolFragment) (x : String)
    (h : resolveId fs = some x) : x ≠ "" := by
  induction fs with
  | nil => simp [resolveId] at h
  | cons f fs ih =>
      by_cases hf : truthy f.id = true
      · rw [resolveId, if_pos hf] at h
        intro hx
        rw [hx] at h
        simp [truthy, h] at hf
      · rw [resolveId, if_neg hf] at h
        exact ih h

theorem lookupSlot_append (i : Nat) (l1 l2 : List (Nat × Slot)) :
    lookupSlot i (l1 ++ l2) =
      match lookupSlot i l1 with
      | some s => some s
      | none => lookupSlot i l2 := by
  induction l1 with
  | nil => simp [lookupSlot]
  | cons p rest ih =>
      by_cases h : p.1 = i
      · simp [lookupSlot, h]
      · simpa [lookupSlot, h] using ih

theorem updPair_eq_of_ne (k : Nat) (g : Slot → Slot) (p : Nat × Slot)
    (h : ¬ p.1 = k) : updPair k g p = p := by
  simp [updPair, h]

theorem lookupSlot_map_update (i k : Nat) (g : Slot → Slot) (l : List (Nat × Slot)) :
    lookupSlot i (l.map (updPair k g)) =
      if i = k then (lookupSlot i l).map g else lookupSlot i l := by
  induction l with
  | nil => simp [lookupSlot]
  | cons p rest ih =>
      obtain ⟨j, s⟩ := p
      rw [List.map_cons]
      by_cases hjk : j = k
      · subst hjk
        have hd : updPair j g (j, s) = (j, g s) := by simp [updPair]
        rw [hd]
        by_cases hji : j = i
        · subst hji
          simp [lookupSlot]
        · have hik : ¬ i = j := fun h => hji h.symm
          simp [lookupSlot, hji, hik, ih]
      · have hd : updPair k g (j, s) = (j, s) := by simp [updPair, hjk]
        rw [hd]
        by_cases hji : j = i
        · subst hji
          simp [lookupSlot, hjk]
        · simp [lookupSlot, hji, ih]

theorem map_update_of_lookup_none (k : Nat) (g : Slot → Slot) (l : List (Nat × Slot))
    (h : lookupSlot k l = none) :
    l.map (updPair k g) = l := by
  induction l with
  | nil => rfl
  | cons p rest ih =>
      rw [lookupSlot] at h
      by_cases hpk : p.1 = k
      · simp [hpk] at h
      · simp only [List.map_cons, updPair_eq_of_ne k g p hpk]
        rw [ih (by simpa [hpk] using h)]

theorem lookupSlot_applyFrag (acc : List (Nat × Slot)) (f : ToolFragment) (i : Nat) :
    lookupSlot i (applyFrag acc f) =
      if i = f.index then some (updSlot (lookupSlot f.index acc) f)
      else lookupSlot i acc := by
  unfold applyFrag
  cases h : lookupSlot f.index acc with
  | none =>
      dsimp only
      rw [lookupSlot_append]
      by_cases hif : i = f.index
      · subst hif
        simp [h, lookupSlot, updSlot]
      · have hfi : ¬ f.index = i := fun hh => hif hh.symm
        cases hacc : lookupSlot i acc <;> simp [hacc, lookupSlot, hfi, hif]
  | some s =>
      dsimp only
      rw [lookupSlot_map_update]
      by_cases hif : i = f.index
      · subst hif
        simp [h, updSlot]
      · simp [hif]

theorem lookupSlot_foldl_applyFrag (fs : List ToolFragment) (acc : List (Nat × Slot))
    (i : Nat) :
    lookupSlot i (fs.foldl applyFrag acc) =
      slotFold (lookupSlot i acc) (fs.filter fun f => f.index = i) := by
  induction fs generalizing acc with
  | nil => rfl
  | cons f fs ih =>
      rw [List.foldl_cons, ih, lookupSlot_applyFrag]
      by_cases hfi : f.index = i
      · simp [hfi, List.filter_cons, slotFold]
      · have : ¬ i = f.index := fun h => hfi h.symm
        simp [hfi, this, List.filter_cons]

theorem applyDelta_content (st : AccState) (d : Delta) :
    (applyDelta st d).content = st.content ++ d.content.getD "" := by
  unfold applyDelta
  by_cases h : truthy d.content = true
  · simp [h]
  · simp [h, truthy_false d.content h, String.append_empty]

theorem applyDelta_acc (st : AccState) (d : Delta) :
    (applyDelta st d).acc = d.tool_calls.foldl applyFrag st.acc := rfl

theorem foldl_applyDelta_content (ds : List Delta) (st : AccState) :
    (ds.foldl applyDelta st).content =
      st.content ++ concatAll (ds.map fun d => d.content.getD "") := by
  induction ds generalizing st with
  | nil => simp [concatAll, String.append_empty]
  | cons d ds ih => simp [concatAll, ih, applyDelta_content, String.append_assoc]

theorem foldl_applyDelta_acc (ds : List Delta) (st : AccState) :
    (ds.foldl applyDelta st).acc = (fragsOf ds).foldl applyFrag st.acc := by
  induction ds generalizing st with
  | nil => rfl
  | cons d ds ih =>
      rw [List.foldl_cons, ih]
      simp [fragsOf, applyDelta_acc, List.foldl_append]

/-- The dict lookup after accumulating a whole delta sequence is the
fold of exactly that index's fragment subsequence. -/
theorem lookupSlot_accumulate (ds : List Delta) (i : Nat) :
    lookupSlot i (accumulate ds).acc = slotOf (fragsAt i ds) := by
  rw [accumulate, foldl_applyDelta_acc, lookupSlot_foldl_applyFrag]
  rfl

theorem accumulate_content (ds : List Delta) :
    (accumulate ds).content = concatAll (ds.map fun d => d.content.getD "") := by
  rw [accumulate, foldl_applyDelta_content]
  simp [String.empty_append]

theorem slotFold_some (s : Slot) (fs : List ToolFragment) :
    slotFold (some s) fs = some (fs.foldl stepSlot s) := by
  induction fs generalizing s with
  | nil => rfl
  | cons f fs ih => simpa [slotFold, updSlot] using ih (stepSlot s f)

theorem slotOf_name (fs : List ToolFragment) :
    (slotOf fs).map Slot.name = if fs.isEmpty then none else some (namesJoined fs) := by
  cases fs with
  | nil => rfl
  | cons f rest =>
      have h0 : slotOf (f :: rest) = some (rest.foldl stepSlot (firstSlot f)) := by
        simpa [slotOf, slotFold, updSlot] using slotFold_some (firstSlot f) rest
      rw [h0]
      simp [foldl_stepSlot_name, firstSlot_eq_establish, establish, namesJoined, concatAll]

theorem slotOf_arguments (fs : List ToolFragment) :
    (slotOf fs).map Slot.arguments =
      if fs.isEmpty then none else some (argsJoined fs) := by
  cases fs with
  | nil => rfl
  | cons f rest =>
      have h0 : slotOf (f :: rest) = some (rest.foldl stepSlot (firstSlot f)) := by
        simpa [slotOf, slotFold, updSlot] using slotFold_some (firstSlot f) rest
      rw [h0]
      simp [foldl_stepSlot_arguments, firstSlot_eq_establish, establish, argsJoined, concatAll]

theorem slotOf_id (fs : List ToolFragment) :
    (slotOf fs).map (fun s => s.id.getD "") =
      if fs.isEmpty then none else some ((resolveId fs).getD "") := by
  cases fs with
  | nil => rfl
  | cons f rest =>
      have h0 : slotOf (f :: rest) = some (rest.foldl stepSlot (firstSlot f)) := by
        simpa [slotOf, slotFold, updSlot] using slotFold_some (firstSlot f) rest
      rw [h0]
      have hfirst : (firstSlot f).id = f.id := by
        rw [firstSlot_eq_establish]; rfl
      by_cases hf : truthy f.id = true
      · simp [foldl_stepSlot_id, hfirst, hf, resolveId]
      · simp [foldl_stepSlot_id, hfirst, hf, resolveId]

/-! ## Keys of the accumulator dict -/

theorem lookupSlot_isSome_iff (i : Nat) (acc : List (Nat × Slot)) :
    (lookupSlot i acc).isSome = true ↔ i ∈ acc.map Prod.fst := by
  induction acc with
  | nil => simp [lookupSlot]
  | cons p rest ih =>
      by_cases h : p.1 = i
      · simp [lookupSlot, h]
      · have h2 : ¬ i = p.1 := fun hh => h hh.symm
        simp [lookupSlot, h, h2, ih]

theorem map_fst_map_updPair (k : Nat) (g : Slot → Slot) (l : List (Nat × Slot)) :
    (l.map (updPair k g)).map Prod.fst = l.map Prod.fst := by
  rw [List.map_map]
  apply List.map_congr_left
  intro p _
  simp only [Function.comp]
  unfold updPair
  split <;> rfl

theorem map_fst_applyFrag (acc : List (Nat × Slot)) (f : ToolFragment) :
    (applyFrag acc f).map Prod.fst = keyStep (acc.map Prod.fst) f.index := by
  unfold applyFrag keyStep
  cases h : lookupSlot f.index acc with
  | none =>
      have : ¬ f.index ∈ acc.map Prod.fst := by
        rw [← lookupSlot_isSome_iff, h]; simp
      simp [this]
  | some s =>
      have hmem : f.index ∈ acc.map Prod.fst := by
        rw [← lookupSlot_isSome_iff, h]; rfl
      rw [map_fst_map_updPair, if_pos hmem]

theorem map_fst_foldl_applyFrag (fs : List ToolFragment) (acc : List (Nat × Slot)) :
    (fs.foldl applyFrag acc).map Prod.fst = keyFold (acc.map Prod.fst) fs := by
  induction fs generalizing acc with
  | nil => rfl
  | cons f fs ih =>
      rw [List.foldl_cons, ih, map_fst_applyFrag]
      rfl

theorem mem_keyFold (fs : List ToolFragment) (ks : List Nat) (i : Nat) :
    i ∈ keyFold ks fs ↔ i ∈ ks ∨ ∃ f ∈ fs, f.index = i := by
  induction fs generalizing ks with
  | nil => simp [keyFold]
  | cons f fs ih =>
      have hstep : keyFold ks (f :: fs) = keyFold (keyStep ks f.index) fs := rfl
      rw [hstep, ih]
      unfold keyStep
      by_cases h : f.index ∈ ks
      · constructor
        · rintro (hk | hf)
          · simp [h] at hk
            exact Or.inl hk
          · exact Or.inr ⟨_, List.mem_cons_of_mem f hf.choose_spec.1, hf.choose_spec.2⟩
        · rintro (hk | ⟨g, hg, hgi⟩)
          · exact Or.inl (by simp [h]; exact hk)
          · rcases List.mem_cons.mp hg with rfl | hg2
            · exact Or.inl (by simp [h]; exact hgi ▸ h)
            · exact Or.inr ⟨g, hg2, hgi⟩
      · constructor
        · rintro (hk | hf)
          · simp only [if_neg h, List.mem_append, List.mem_singleton] at hk
            rcases hk with hk | rfl
            · exact Or.inl hk
            · exact Or.inr ⟨f, List.mem_cons_self f fs, rfl⟩
          · exact Or.inr ⟨_, List.mem_cons_of_mem f hf.choose_spec.1, hf.choose_spec.2⟩
        · rintro (hk | ⟨g, hg, hgi⟩)
          · exact Or.inl (by simp [h]; exact Or.inl hk)
          · rcases List.mem_cons.mp hg with rfl | hg2
            · exact Or.inl (by by_cases hik : i ∈ ks <;> simp [hik, h, hgi])
            · exact Or.inr ⟨g, hg2, hgi⟩

theorem mem_keys_accumulate (ds : List Delta) (i : Nat) :
    i ∈ (accumulate ds).acc.map Prod.fst ↔ ∃ f ∈ fragsOf ds, f.index = i := by
  rw [accumulate, foldl_applyDelta_acc, map_fst_foldl_applyFrag]
  simpa using mem_keyFold (fragsOf ds) [] i

theorem sortedKeys_sorted (acc : List (Nat × Slot)) :
    List.Sorted (· ≤ ·) (sortedKeys acc) :=
  List.sorted_insertionSort _ _

theorem mem_sortedKeys (acc : List (Nat × Slot)) (i : Nat) :
    i ∈ sortedKeys acc ↔ i ∈ acc.map Prod.fst :=
  (List.perm_insertionSort _ _).mem_iff

theorem finalizeGo_eq_normGo (ds : List Delta) (fresh : Nat → String)
    (ks : List Nat) (j : Nat) :
    finalizeGo (accumulate ds).acc fresh ks j = normGo ds fresh ks j := by
  induction ks generalizing j with
  | nil => rfl
  | cons i rest ih =>
      rw [finalizeGo, normGo, ih (j + 1), lookupSlot_accumulate, normCall]

/-- The reconstruction of `tool_calls` at `src/agent/main.py` lines
254-264, expressed purely in terms of per-index projections of the
delta stream and the ascending key order. -/
theorem finalizeCalls_accumulate (ds : List Delta) (fresh : Nat → String) :
    finalizeCalls (accumulate ds).acc fresh =
      normGo ds fresh (sortedKeys (accumulate ds).acc) 0 := by
  rw [finalizeCalls, finalizeGo_eq_normGo]

/-! ## Re-chunking a delta stream -/

theorem slotExt (a b : Slot) (h1 : a.id = b.id) (h2 : a.name = b.name)
    (h3 : a.arguments = b.arguments) : a = b := by
  cases a; cases b; simp_all

theorem accStateExt (a b : AccState) (h1 : a.content = b.content)
    (h2 : a.acc = b.acc) : a = b := by
  cases a; cases b; simp_all

theorem stepSlot_split {f f1 f2 : ToolFragment} (h : FragSplit f f1 f2) (s : Slot) :
    stepSlot (stepSlot s f1) f2 = stepSlot s f := by
  apply slotExt
  · rw [stepSlot_id, stepSlot_id, stepSlot_id, h.id2, h.id1]
    simp
  · rw [stepSlot_name, stepSlot_name, stepSlot_name, String.append_assoc, h.name_eq]
  · rw [stepSlot_arguments, stepSlot_arguments, stepSlot_arguments,
      String.append_assoc, h.args_eq]

theorem firstSlot_split {f f1 f2 : ToolFragment} (h : FragSplit f f1 f2) :
    stepSlot (firstSlot f1) f2 = firstSlot f := by
  rw [firstSlot_eq_establish, firstSlot_eq_establish]
  apply slotExt
  · rw [stepSlot_id, h.id2]
    simpa [establish] using h.id1
  · rw [stepSlot_name]
    simpa [establish] using h.name_eq
  · rw [stepSlot_arguments]
    simpa [establish] using h.args_eq

theorem updPair_comp (k : Nat) (g1 g2 : Slot → Slot) (p : Nat × Slot) :
    updPair k g2 (updPair k g1 p) = updPair k (fun s => g2 (g1 s)) p := by
  unfold updPair
  by_cases h : p.1 = k <;> simp [h]

theorem applyFrag_split {f f1 f2 : ToolFragment} (h : FragSplit f f1 f2)
    (acc : List (Nat × Slot)) :
    applyFrag (applyFrag acc f1) f2 = applyFrag acc f := by
  cases hl : lookupSlot f.index acc with
  | none =>
      have e1 : applyFrag acc f1 = acc ++ [(f.index, firstSlot f1)] := by
        unfold applyFrag
        rw [h.idx1, hl]
      have e2 : lookupSlot f2.index (acc ++ [(f.index, firstSlot f1)]) =
          some (firstSlot f1) := by
        rw [h.idx2, lookupSlot_append, hl]
        simp [lookupSlot]
      have e3 : applyFrag acc f = acc ++ [(f.index, firstSlot f)] := by
        unfold applyFrag
        rw [hl]
      rw [e1, e3]
      unfold applyFrag
      rw [e2]
      dsimp only
      rw [h.idx2, List.map_append,
        map_update_of_lookup_none f.index _ acc hl]
      have e4 : updPair f.index (fun s => stepSlot s f2) (f.index, firstSlot f1) =
          (f.index, firstSlot f) := by
        unfold updPair
        simp [firstSlot_split h]
      simp [e4]
  | some s =>
      have e1 : applyFrag acc f1 = acc.map (updPair f.index fun s => stepSlot s f1) := by
        unfold applyFrag
        rw [h.idx1, hl]
      have e2 : lookupSlot f2.index
          (acc.map (updPair f.index fun s => stepSlot s f1)) =
          some (stepSlot s f1) := by
        rw [h.idx2, lookupSlot_map_update]
        simp [hl]
      have e3 : applyFrag acc f = acc.map (updPair f.index fun s => stepSlot s f) := by
        unfold applyFrag
        rw [hl]
      rw [e1, e3]
      unfold applyFrag
      rw [e2]
      dsimp only
      rw [h.idx2, List.map_map]
      apply List.map_congr_left
      intro p _
      simp only [Function.comp]
      rw [updPair_comp]
      have hfun : (fun s => stepSlot (stepSlot s f1) f2) = fun s => stepSlot s f :=
        funext (stepSlot_split h)
      rw [hfun]

theorem foldl_fragsCut {fs fs1 fs2 : List ToolFragment}
    (h : FragsCut fs fs1 fs2) (acc : List (Nat × Slot)) :
    fs2.foldl applyFrag (fs1.foldl applyFrag acc) = fs.foldl applyFrag acc := by
  cases h with
  | boundary l1 l2 => rw [List.foldl_append]
  | mid l1 f f1 f2 l2 hsplit =>
      rw [List.foldl_append, List.foldl_append, List.foldl_cons]
      simp only [List.foldl_cons, List.foldl_nil]
      rw [applyFrag_split hsplit]

theorem applyDelta_split {d d1 d2 : Delta} (h : DeltaSplit d d1 d2) (st : AccState) :
    applyDelta (applyDelta st d1) d2 = applyDelta st d := by
  apply accStateExt
  · rw [applyDelta_content, applyDelta_content, applyDelta_content,
      String.append_assoc, h.content_eq]
  · rw [applyDelta_acc, applyDelta_acc, applyDelta_acc]
    exact foldl_fragsCut h.frags st.acc

/-- Re-chunking invariance at the state level: accumulating the stream
with one delta replaced by its two halves gives the same accumulator
state. -/
theorem accumulate_split (pre post : List Delta) {d d1 d2 : Delta}
    (h : DeltaSplit d d1 d2) :
    accumulate (pre ++ d1 :: d2 :: post) = accumulate (pre ++ d :: post) := by
  unfold accumulate
  rw [List.foldl_append, List.foldl_append, List.foldl_cons, List.foldl_cons,
    List.foldl_cons, applyDelta_split h]

theorem callTag_ne_empty (u : String) : "call_" ++ u ≠ "" := by
  intro h
  have hl := congrArg String.length h
  rw [String.length_append] at hl
  rw [show ("call_" : String).length = 5 from rfl,
    show ("" : String).length = 0 from rfl] at hl
  omega

theorem mem_normGo (ds : List Delta) (fresh : Nat → String) :
    ∀ (ks : List Nat) (j : Nat) (c : ToolCall), c ∈ normGo ds fresh ks j →
      ∃ i j', c = normCall (fragsAt i ds) (fresh j') := by
  intro ks
  induction ks with
  | nil => intro j c hc; simp [normGo] at hc
  | cons i rest ih =>
      intro j c hc
      rw [normGo] at hc
      rcases List.mem_cons.mp hc with h | h
      · exact ⟨i, j, h⟩
      · exact ih (j + 1) c h

theorem normCall_id (fs : List ToolFragment) (u : String) :
    (normCall fs u).id ≠ "" ∧
      (resolveId fs = some (normCall fs u).id ∨ (normCall fs u).id = "call_" ++ u) := by
  unfold normCall
  cases hs : slotOf fs with
  | none =>
      simp only [mkCall, truthy, Option.getD_none]
      refine ⟨?_, Or.inr rfl⟩
      simpa using callTag_ne_empty u
  | some s =>
      dsimp only
      by_cases ht : truthy s.id = true
      · have hid : (mkCall s u).id = s.id.getD "" := by simp [mkCall, ht]
        have hmap := slotOf_id fs
        rw [hs] at hmap
        by_cases hemp : fs.isEmpty
        · rw [if_pos hemp] at hmap
          simp at hmap
        · rw [if_neg hemp] at hmap
          have hval : s.id.getD "" = (resolveId fs).getD "" := by
            simpa using hmap
          have hne : s.id.getD "" ≠ "" := by
            simpa [truthy] using ht
          cases hres : resolveId fs with
          | none => rw [hres] at hval; simp at hval; exact absurd hval hne
          | some x =>
              rw [hres] at hval
              simp at hval
              exact ⟨by rw [hid]; exact hne,
                Or.inl (congrArg some (hval.symm.trans hid.symm))⟩
      · have hid : (mkCall s u).id = "call_" ++ u := by simp [mkCall, ht]
        exact ⟨by rw [hid]; exact callTag_ne_empty u, Or.inr hid⟩

/-! ## Claim theorems -/

/-- C3: for every sequence of generation deltas, folding concatenates
text fragments in arrival order (the accumulated content is the
concatenation of all delta contents), and tool-call fragments
accumulate per index: the slot of an index, once established by the
first fragment bearing it, holds exactly the in-order concatenation of
every fragment's name and argument contributions; each later fragment
appends to (never replaces) the slot's name and argument text, and the
first fragment establishes the slot from its own fields. -/
theorem c3_fold_concatenates_and_accumulates_per_index (ds : List Delta) :
    ((accumulate ds).content = concatAll (ds.map fun d => d.content.getD "")) ∧
    (∀ i : Nat,
      (lookupSlot i (accumulate ds).acc).map Slot.name =
        (if (fragsAt i ds).isEmpty then none else some (namesJoined (fragsAt i ds))) ∧
      (lookupSlot i (accumulate ds).acc).map Slot.arguments =
        (if (fragsAt i ds).isEmpty then none else some (argsJoined (fragsAt i ds)))) ∧
    (∀ (s : Slot) (f : ToolFragment),
      (stepSlot s f).name = s.name ++ f.name.getD "" ∧
      (stepSlot s f).arguments = s.arguments ++ f.arguments.getD "") ∧
    (∀ f : ToolFragment, firstSlot f = establish f) := by
  refine ⟨accumulate_content ds, fun i => ⟨?_, ?_⟩,
    fun s f => ⟨stepSlot_name s f, stepSlot_arguments s f⟩, firstSlot_eq_establish⟩
  · rw [lookupSlot_accumulate, slotOf_name]
  · rw [lookupSlot_accumulate, slotOf_arguments]

/-- C4: folding is invariant under re-chunking: replacing one delta of
the stream by two deltas that split it (text content cut in two, the
fragment list cut in two — possibly through the middle of one fragment,
whose name and argument text are cut and whose id travels with the
first half) yields the identical accumulator state and the identical
AccumulatedTurn (same full text, same ordered list of completed tool
calls). -/
theorem c4_rechunking_invariance (pre post : List Delta) (d d1 d2 : Delta)
    (fresh : Nat → String) (h : DeltaSplit d d1 d2) :
    accumulate (pre ++ d1 :: d2 :: post) = accumulate (pre ++ d :: post) ∧
    finalTurn (pre ++ d1 :: d2 :: post) fresh = finalTurn (pre ++ d :: post) fresh := by
  have hacc := accumulate_split pre post h
  exact ⟨hacc, by rw [finalTurn, finalTurn, hacc]⟩

/-- Witness for C4 at a concrete split: the delta carrying text "ab"
and one fragment (index 0, id "x", name "name", arguments "\x7b\x7d") is
split into text "a" / fragments (id "x", "na", "\x7b") and text "b" /
(no id, "me", "\x7d"); both chunkings accumulate to the same turn. -/
theorem c4_rechunking_invariance_witness :
    DeltaSplit
      ⟨some "ab", [⟨0, some "x", some "name", some "\x7b\x7d"⟩]⟩
      ⟨some "a", [⟨0, some "x", some "na", some "\x7b"⟩]⟩
      ⟨some "b", [⟨0, none, some "me", some "\x7d"⟩]⟩ ∧
    finalTurn
        [⟨some "a", [⟨0, some "x", some "na", some "\x7b"⟩]⟩,
         ⟨some "b", [⟨0, none, some "me", some "\x7d"⟩]⟩] (fun _ => "u") =
      finalTurn [⟨some "ab", [⟨0, some "x", some "name", some "\x7b\x7d"⟩]⟩]
        (fun _ => "u") := by
  have hsplit : DeltaSplit
      ⟨some "ab", [⟨0, some "x", some "name", some "\x7b\x7d"⟩]⟩
      ⟨some "a", [⟨0, some "x", some "na", some "\x7b"⟩]⟩
      ⟨some "b", [⟨0, none, some "me", some "\x7d"⟩]⟩ := by
    refine ⟨by decide, ?_⟩
    exact FragsCut.mid [] _ _ _ [] ⟨rfl, rfl, rfl, by decide, by decide, by decide⟩
  exact ⟨hsplit,
    (c4_rechunking_invariance [] []
      ⟨some "ab", [⟨0, some "x", some "name", some "\x7b\x7d"⟩]⟩
      ⟨some "a", [⟨0, some "x", some "na", some "\x7b"⟩]⟩
      ⟨some "b", [⟨0, none, some "me", some "\x7d"⟩]⟩ (fun _ => "u") hsplit).2⟩

/-- C5: the completed tool calls of the resulting AccumulatedTurn are
ordered by their integer index: the finalisation iterates over the
ascending sorted key list (whose members are exactly the indices
occurring in the stream), and the call produced for each key is a
function of that index's own fragment subsequence alone, so the order
is independent of the arrival interleaving across indices. -/
theorem c5_calls_ordered_by_index (ds : List Delta) (fresh : Nat → String) :
    List.Sorted (· ≤ ·) (sortedKeys (accumulate ds).acc) ∧
    (∀ i : Nat, i ∈ sortedKeys (accumulate ds).acc ↔ ∃ f ∈ fragsOf ds, f.index = i) ∧
    (finalTurn ds fresh).tool_calls =
      normGo ds fresh (sortedKeys (accumulate ds).acc) 0 := by
  refine ⟨sortedKeys_sorted _, fun i => ?_, ?_⟩
  · rw [mem_sortedKeys]
    exact mem_keys_accumulate ds i
  · exact finalizeCalls_accumulate ds fresh

/-- C10: every completed ToolCall of a finalised turn has a non-empty
id: it is the first truthy id some fragment of its index supplied
(established at first sight or backfilled later), or, when no fragment
supplied one, a generated `call_`-prefixed identifier. -/
theorem c10_completed_calls_have_nonempty_ids (ds : List Delta)
    (fresh : Nat → String) (c : ToolCall)
    (hc : c ∈ (finalTurn ds fresh).tool_calls) :
    c.id ≠ "" ∧
      ((∃ i : Nat, resolveId (fragsAt i ds) = some c.id) ∨
        ∃ j : Nat, c.id = "call_" ++ fresh j) := by
  rw [show (finalTurn ds fresh).tool_calls = finalizeCalls (accumulate ds).acc fresh
      from rfl, finalizeCalls_accumulate] at hc
  obtain ⟨i, j', hcall⟩ := mem_normGo ds fresh _ 0 c hc
  obtain ⟨hne, hdisj⟩ := normCall_id (fragsAt i ds) (fresh j')
  subst hcall
  refine ⟨hne, ?_⟩
  rcases hdisj with h | h
  · exact Or.inl ⟨i, h⟩
  · exact Or.inr ⟨j', h⟩

/-- Witness for C10: a stream whose only tool-call fragment carries no
id produces the call `call_u` (with `u` the generated uuid), which is
non-empty. -/
theorem c10_completed_calls_have_nonempty_ids_witness :
    (⟨"call_u", "f", "\x7b\x7d"⟩ : ToolCall) ∈
      (finalTurn [⟨none, [⟨0, none, some "f", some "\x7b\x7d"⟩]⟩] (fun _ => "u")).tool_calls ∧
    (⟨"call_u", "f", "\x7b\x7d"⟩ : ToolCall).id ≠ "" := by
  have hm : (⟨"call_u", "f", "\x7b\x7d"⟩ : ToolCall) ∈
      (finalTurn [⟨none, [⟨0, none, some "f", some "\x7b\x7d"⟩]⟩] (fun _ => "u")).tool_calls := by
    decide
  exact ⟨hm, (c10_completed_calls_have_nonempty_ids _ _ _ hm).1⟩

/-- C1 (code-bug evidence): the claimed behaviour — on a transient
failure with attempts remaining, emit a "retrying" notice with the
backoff wait and restart generation — never happens.  Because the
catch-all `except Exception as e: ... raise e` at
`src/agent/main.py` line 274 precedes the
`except (litellm.RateLimitError, litellm.ServiceUnavailableError)`
handler at line 278, a transient failure on the FIRST attempt (with
four attempts remaining out of `max_retries = 5`) is re-raised
immediately: the retry block errors, the outer handler emits a single
error notice, no retrying notice is emitted, and the subsequent
(successful) outcome of the capability is never requested. -/
theorem c1_transient_failure_aborts_without_retry
    (droppedDeltas : List Delta) (rest : List AttemptOutcome) :
    retryBlock maxRetries (.transientFailure droppedDeltas :: rest) =
      .error "rate limit or service unavailable" ∧
    generatePhase (.transientFailure droppedDeltas :: rest) =
      ([.errorNotice "I encountered an error: rate limit or service unavailable"],
        none) ∧
    (generatePhase (.transientFailure droppedDeltas :: rest)).1.countP
      isRetryNotice = 0 :=
  ⟨rfl, rfl, rfl⟩

/-- C2: no partial accumulation carries across attempts.  A successful
retry-block result can only come from an outcome whose stream completed,
and it equals the fold of exactly that attempt's deltas starting from
the empty accumulators re-initialised inside the attempt body
(`src/agent/main.py` lines 192-193); the partial deltas consumed before
a failure never influence the phase's result. -/
theorem c2_no_partial_accumulation_across_attempts :
    (∀ (n : Nat) (outcomes : List AttemptOutcome) (st : AccState),
        retryBlock n outcomes = .ok st →
          ∃ ds, outcomes.head? = some (.success ds) ∧ st = accumulate ds ∧
            accumulate ds = ds.foldl applyDelta { content := "", acc := [] }) ∧
    (∀ (p1 p2 : List Delta) (rest : List AttemptOutcome),
        generatePhase (.transientFailure p1 :: rest) =
          generatePhase (.transientFailure p2 :: rest) ∧
        generatePhase (.fatalFailure p1 :: rest) =
          generatePhase (.fatalFailure p2 :: rest)) := by
  constructor
  · intro n outcomes st h
    match n, outcomes with
    | 0, outcomes => simp [retryBlock] at h
    | n + 1, [] => simp [retryBlock] at h
    | n + 1, .success ds :: rest =>
        refine ⟨ds, rfl, ?_, rfl⟩
        have h2 : Except.ok (ε := String) (accumulate ds) = .ok st := h
        injection h2 with h3
        exact h3.symm
    | n + 1, .transientFailure p :: rest => simp [retryBlock] at h
    | n + 1, .fatalFailure p :: rest => simp [retryBlock] at h
  · intro p1 p2 rest
    exact ⟨rfl, rfl⟩

/-- Witness for C2: a capability that succeeds at once with one text
delta; the retry block returns exactly that attempt's fold from the
empty accumulators. -/
theorem c2_no_partial_accumulation_witness :
    ∃ ds, ([AttemptOutcome.success [⟨some "hi", []⟩]].head? =
        some (.success ds) ∧
      accumulate [⟨some "hi", []⟩] = accumulate ds ∧
      accumulate ds = ds.foldl applyDelta { content := "", acc := [] }) :=
  c2_no_partial_accumulation_across_attempts.1 maxRetries
    [.success [⟨some "hi", []⟩]] (accumulate [⟨some "hi", []⟩]) rfl

theorem dispatchBatch_filter_answer (loads : String → Except String PyVal)
    (impl : String → List (String × PyVal) → Except String String)
    (cs : List ToolCall) :
    ((dispatchBatch loads impl cs).1).filter isAnswer = [] := by
  induction cs with
  | nil => rfl
  | cons tc rest ih =>
      simp only [dispatchBatch, dispatchOne, List.filter_append, ih]
      simp [isAnswer]

theorem turnLoop_answer_turn (loads : String → Except String PyVal)
    (impl : String → List (String × PyVal) → Except String String)
    (t : String) (rest : List GenTurn) (msgs : List ChatMsg) :
    turnLoop loads impl ({ text := t, calls := [] } :: rest) msgs =
      ⟨[.answer t], msgs ++ [ChatMsg.assistant t []], true⟩ := rfl

theorem turnLoop_call_turn (loads : String → Except String PyVal)
    (impl : String → List (String × PyVal) → Except String String)
    (g : GenTurn) (hg : g.calls ≠ []) (rest : List GenTurn) (msgs : List ChatMsg) :
    turnLoop loads impl (g :: rest) msgs =
      ⟨(dispatchBatch loads impl g.calls).1 ++
          (turnLoop loads impl rest
            (msgs ++ [ChatMsg.assistant g.text g.calls] ++
              (dispatchBatch loads impl g.calls).2)).events,
        (turnLoop loads impl rest
          (msgs ++ [ChatMsg.assistant g.text g.calls] ++
            (dispatchBatch loads impl g.calls).2)).messages,
        (turnLoop loads impl rest
          (msgs ++ [ChatMsg.assistant g.text g.calls] ++
            (dispatchBatch loads impl g.calls).2)).finished⟩ := by
  have hne : g.calls.isEmpty = false := by
    cases hc : g.calls with
    | nil => exact absurd hc hg
    | cons a l => rfl
  simp only [turnLoop, hne, Bool.false_eq_true, if_false]

theorem turnLoop_pre_answer (loads : String → Except String PyVal)
    (impl : String → List (String × PyVal) → Except String String) :
    ∀ pre : List GenTurn, (∀ p ∈ pre, p.calls ≠ []) →
      ∀ (t : String) (rest : List GenTurn) (msgs : List ChatMsg),
        (turnLoop loads impl (pre ++ { text := t, calls := [] } :: rest) msgs).finished
            = true ∧
        (turnLoop loads impl (pre ++ { text := t, calls := [] } :: rest) msgs).events =
          (pre.map fun g => (dispatchBatch loads impl g.calls).1).flatten
            ++ [.answer t] ∧
        ((turnLoop loads impl (pre ++ { text := t, calls := [] } :: rest) msgs).events).filter
            isAnswer = [.answer t] := by
  intro pre
  induction pre with
  | nil =>
      intro _ t rest msgs
      rw [List.nil_append, turnLoop_answer_turn]
      refine ⟨rfl, by simp, by simp [isAnswer]⟩
  | cons g pre ih =>
      intro hpre t rest msgs
      have hg : g.calls ≠ [] := hpre g (List.mem_cons_self g pre)
      rw [List.cons_append, turnLoop_call_turn loads impl g hg]
      obtain ⟨ihf, ihe, ihfl⟩ := ih (fun p hp => hpre p (List.mem_cons_of_mem g hp))
        t rest (msgs ++ [ChatMsg.assistant g.text g.calls] ++
          (dispatchBatch loads impl g.calls).2)
      refine ⟨ihf, ?_, ?_⟩
      · dsimp only
        rw [ihe]
        simp [List.append_assoc]
      · dsimp only
        rw [List.filter_append, dispatchBatch_filter_answer, ihfl]
        rfl

theorem turnLoop_never_done (loads : String → Except String PyVal)
    (impl : String → List (String × PyVal) → Except String String) :
    ∀ script : List GenTurn, (∀ p ∈ script, p.calls ≠ []) →
      ∀ msgs : List ChatMsg,
        (turnLoop loads impl script msgs).finished = false ∧
        ((turnLoop loads impl script msgs).events).filter isAnswer = [] := by
  intro script
  induction script with
  | nil => intro _ msgs; exact ⟨rfl, rfl⟩
  | cons g rest ih =>
      intro hs msgs
      have hg : g.calls ≠ [] := hs g (List.mem_cons_self g rest)
      rw [turnLoop_call_turn loads impl g hg]
      obtain ⟨ihf, ihfl⟩ := ih (fun p hp => hs p (List.mem_cons_of_mem g hp))
        (msgs ++ [ChatMsg.assistant g.text g.calls] ++
          (dispatchBatch loads impl g.calls).2)
      refine ⟨ihf, ?_⟩
      dsimp only
      rw [List.filter_append, dispatchBatch_filter_answer, ihfl]
      rfl

/-- C6: the turn loop reaches Done exactly when an accumulated turn has
zero tool calls.  First conjunct: after any prefix of turns that all
carry tool calls (each of which is dispatched, contributing its
dispatch notices), the first turn without tool calls makes the loop
emit the accumulated text as the single final-answer notice and
terminate, never consuming the remaining script.  Second conjunct: as
long as every generated turn carries tool calls, the loop never
finishes and emits no answer notice. -/
theorem c6_done_iff_no_tool_calls (loads : String → Except String PyVal)
    (impl : String → List (String × PyVal) → Except String String)
    (msgs : List ChatMsg) :
    (∀ (pre : List GenTurn) (t : String) (rest : List GenTurn),
        (∀ p ∈ pre, p.calls ≠ []) →
        (turnLoop loads impl (pre ++ { text := t, calls := [] } :: rest) msgs).finished
            = true ∧
        (turnLoop loads impl (pre ++ { text := t, calls := [] } :: rest) msgs).events =
          (pre.map fun g => (dispatchBatch loads impl g.calls).1).flatten
            ++ [.answer t] ∧
        ((turnLoop loads impl
            (pre ++ { text := t, calls := [] } :: rest) msgs).events).filter
            isAnswer = [.answer t]) ∧
    (∀ script : List GenTurn, (∀ p ∈ script, p.calls ≠ []) →
        (turnLoop loads impl script msgs).finished = false ∧
        ((turnLoop loads impl script msgs).events).filter isAnswer = []) :=
  ⟨fun pre t rest hpre => turnLoop_pre_answer loads impl pre hpre t rest msgs,
   fun script hs => turnLoop_never_done loads impl script hs msgs⟩

/-- Witness for C6: one tool-calling turn followed by a call-free turn
finishes with the answer notice; a single tool-calling turn leaves the
loop unfinished. -/
theorem c6_done_iff_no_tool_calls_witness :
    ((turnLoop jsonLoads (fun _ _ => .ok "ok")
        ([⟨"thinking", [⟨"id1", "check_ticket_status", "\x7b\x7d"⟩]⟩] ++
          { text := "done", calls := [] } :: []) []).finished = true ∧
      ((turnLoop jsonLoads (fun _ _ => .ok "ok")
        ([⟨"thinking", [⟨"id1", "check_ticket_status", "\x7b\x7d"⟩]⟩] ++
          { text := "done", calls := [] } :: []) []).events).filter isAnswer =
        [.answer "done"]) ∧
    (turnLoop jsonLoads (fun _ _ => .ok "ok")
        [⟨"loop", [⟨"id2", "vm_provisioning", "\x7b\x7d"⟩]⟩] []).finished = false := by
  have h := c6_done_iff_no_tool_calls jsonLoads (fun _ _ => .ok "ok") []
  have h1 := h.1 [⟨"thinking", [⟨"id1", "check_ticket_status", "\x7b\x7d"⟩]⟩] "done" []
    (by intro p hp; simp at hp; subst hp; simp)
  have h2 := h.2 [⟨"loop", [⟨"id2", "vm_provisioning", "\x7b\x7d"⟩]⟩]
    (by intro p hp; simp at hp; subst hp; simp)
  exact ⟨⟨h1.1, h1.2.2⟩, h2.1⟩

/-- C7 counterexample: a dispatched tool call whose name
(`delete_everything`) is absent from the registry but whose argument
text (`""`) is not valid JSON does NOT produce the "tool not found"
string: `json.loads` runs before the registry lookup
(`src/agent/main.py` lines 356-365), so its failure yields the generic
"Error executing tool" string instead. -/
theorem c7_counterexample :
    ("delete_everything" ∉ availableFunctionNames) ∧
    dispatchResult jsonLoads (fun _ _ => .ok "ok") "delete_everything" "" =
      execErrorMsg "Expecting value" ∧
    dispatchResult jsonLoads (fun _ _ => .ok "ok") "delete_everything" "" ≠
      toolNotFoundMsg "delete_everything" := by
  refine ⟨by decide, rfl, by decide⟩

/-- C7 (amended): for every dispatched tool call whose name is absent
from the registry, dispatch never raises: when the argument text
parses, the result is the explicit "tool not found" string; when
parsing fails, it is the generic caught-exception string.  Either way
the result is appended to the conversation as a tool-result turn and
the loop continues with the rest of the script instead of failing. -/
theorem c7_unknown_tool_recovers (loads : String → Except String PyVal)
    (impl : String → List (String × PyVal) → Except String String)
    (name args : String) (hname : name ∉ availableFunctionNames) :
    (∀ v, loads args = .ok v →
        dispatchResult loads impl name args = toolNotFoundMsg name) ∧
    (∀ m, loads args = .error m →
        dispatchResult loads impl name args = execErrorMsg m) ∧
    (∀ (t id : String) (rest : List GenTurn) (msgs : List ChatMsg),
        turnLoop loads impl (⟨t, [⟨id, name, args⟩]⟩ :: rest) msgs =
          ⟨[.toolCallNotice name args,
              .toolResultNotice name (dispatchResult loads impl name args)] ++
              (turnLoop loads impl rest
                (msgs ++ [ChatMsg.assistant t [⟨id, name, args⟩]] ++
                  [ChatMsg.tool id name (dispatchResult loads impl name args)])).events,
            (turnLoop loads impl rest
              (msgs ++ [ChatMsg.assistant t [⟨id, name, args⟩]] ++
                [ChatMsg.tool id name (dispatchResult loads impl name args)])).messages,
            (turnLoop loads impl rest
              (msgs ++ [ChatMsg.assistant t [⟨id, name, args⟩]] ++
                [ChatMsg.tool id name (dispatchResult loads impl name args)])).finished⟩) := by
  refine ⟨?_, ?_, ?_⟩
  · intro v hv
    unfold dispatchResult
    rw [hv]
    dsimp only
    rw [if_neg hname]
  · intro m hm
    unfold dispatchResult
    rw [hm]
  · intro t id rest msgs
    rw [turnLoop_call_turn loads impl ⟨t, [⟨id, name, args⟩]⟩ (by simp) rest msgs]
    simp [dispatchBatch, dispatchOne]

/-- Witness for C7 (amended): dispatching the unregistered
`delete_everything` with the parsing argument text `"\x7b\x7d"` yields the
"tool not found" string. -/
theorem c7_unknown_tool_recovers_witness :
    dispatchResult jsonLoads (fun _ _ => .ok "ok") "delete_everything" "\x7b\x7d" =
      toolNotFoundMsg "delete_everything" :=
  (c7_unknown_tool_recovers jsonLoads (fun _ _ => .ok "ok") "delete_everything" "\x7b\x7d"
    (by decide)).1 (.dict []) rfl

theorem msgTag_ne_root (x : String) : ¬ ("msg_" ++ x) = "root" := by
  intro h
  have hd := congrArg String.data h
  rw [String.data_append] at hd
  rw [show ("msg_" : String).data = ['m', 's', 'g', '_'] from rfl,
    show ("root" : String).data = ['r', 'o', 'o', 't'] from rfl] at hd
  simp at hd

theorem msgIdFor_ne_root (r : AgentResponse) (freshId : String) :
    ¬ msgIdFor r freshId = "root" := by
  unfold msgIdFor
  split <;> apply msgTag_ne_root

theorem rootChildren_convert (r : AgentResponse) (freshId : String) :
    rootChildren (convertToA2ui r freshId) = [msgIdFor r freshId] := by
  have hne : ¬ msgIdFor r freshId = "root" := msgIdFor_ne_root r freshId
  simp [rootChildren, convertToA2ui, List.find?_cons, hne]

/-- C8 counterexample: when the component list handed to the envelope
assembly carries two components with the same identifier (the LLM's
output is not deduplicated, `src/backend/core/a2ui_generator.py` lines
251-257), the root fragment's listed children contain that identifier
twice. -/
theorem c8_counterexample :
    rootChildren (generateEnvelope
        [⟨"a", .textLit "x" none⟩, ⟨"a", .textLit "y" none⟩]) = ["a", "a"] ∧
    ¬ (rootChildren (generateEnvelope
        [⟨"a", .textLit "x" none⟩, ⟨"a", .textLit "y" none⟩])).Nodup := by
  exact ⟨rfl, by decide⟩

/-- C8 (amended): every conversion yields a root container fragment
listing the identifiers of the envelope's non-root components in
emission order.  The direct text conversion's root lists exactly the
single text fragment's identifier, so its children never duplicate.
The LLM-path assembly's root lists the generated components'
identifiers in order, and its children are duplicate-free whenever
those identifiers are distinct — the code performs no deduplication. -/
theorem c8_root_lists_children (r : AgentResponse) (freshId : String)
    (comps : List Component)
    (hroot : "root" ∉ comps.map Component.id)
    (hnodup : (comps.map Component.id).Nodup) :
    ((convertToA2ui r freshId).components =
      [⟨msgIdFor r freshId,
         .textLit (match r.output_text with | some t => t | none => r.output_str)
           (usageHintFor (r.metadata_type.getD "text"))⟩,
       ⟨"root", .column [msgIdFor r freshId]⟩]) ∧
    rootChildren (convertToA2ui r freshId) = [msgIdFor r freshId] ∧
    (rootChildren (convertToA2ui r freshId)).Nodup ∧
    (generateEnvelope comps).components =
      comps ++ [createRootComponent (comps.map Component.id)] ∧
    rootChildren (generateEnvelope comps) = comps.map Component.id ∧
    (rootChildren (generateEnvelope comps)).Nodup := by
  have h5 : rootChildren (generateEnvelope comps) = comps.map Component.id := by
    unfold rootChildren generateEnvelope
    rw [List.find?_append]
    have hnone : comps.find? (fun c => c.id = "root") = none := by
      rw [List.find?_eq_none]
      intro c hc
      simp only [decide_eq_true_eq]
      intro hcid
      exact hroot (hcid ▸ List.mem_map_of_mem Component.id hc)
    rw [hnone]
    simp [createRootComponent, List.find?_cons]
  refine ⟨rfl, rootChildren_convert r freshId, ?_, rfl, h5, ?_⟩
  · rw [rootChildren_convert r freshId]
    simp
  · rw [h5]
    exact hnodup

/-- Witness for C8 (amended): a response carrying message id "abc" and
two distinct LLM components. -/
theorem c8_root_lists_children_witness :
    rootChildren (convertToA2ui ⟨some "hi", "", some "answer", some "abc"⟩ "u") =
      [msgIdFor ⟨some "hi", "", some "answer", some "abc"⟩ "u"] ∧
    rootChildren (generateEnvelope
        [⟨"a", .textLit "x" none⟩, ⟨"b", .textLit "y" none⟩]) = ["a", "b"] ∧
    (rootChildren (generateEnvelope
        [⟨"a", .textLit "x" none⟩, ⟨"b", .textLit "y" none⟩])).Nodup := by
  have h := c8_root_lists_children ⟨some "hi", "", some "answer", some "abc"⟩ "u"
    [⟨"a", .textLit "x" none⟩, ⟨"b", .textLit "y" none⟩]
    (by decide) (by decide)
  exact ⟨h.2.1, h.2.2.2.2.1, h.2.2.2.2.2⟩

/-- C9: the literal-text fragment's identifier is derived
deterministically from the response's message id (`"msg_" + id`), so
two conversions of responses bearing the same (non-empty) message id
produce text fragments with the identical identifier regardless of the
uuid parameters — a later fragment therefore addresses the same
component and replaces it in place. -/
theorem c9_identifier_derived_from_message_id (r1 r2 : AgentResponse)
    (u1 u2 : String) (m : String) (hm : m ≠ "")
    (h1 : r1.message_id = some m) (h2 : r2.message_id = some m) :
    msgIdFor r1 u1 = "msg_" ++ m ∧ msgIdFor r2 u2 = "msg_" ++ m ∧
    ((convertToA2ui r1 u1).components.head?).map Component.id =
      ((convertToA2ui r2 u2).components.head?).map Component.id ∧
    ((convertToA2ui r1 u1).components.head?).map Component.id =
      some ("msg_" ++ m) := by
  have key : ∀ (r : AgentResponse) (u : String), r.message_id = some m →
      msgIdFor r u = "msg_" ++ m := by
    intro r u hr
    unfold msgIdFor
    rw [hr]
    have ht : truthy (some m) = true := by
      simp [truthy]
      exact hm
    rw [if_pos ht]
    rfl
  have e1 := key r1 u1 h1
  have e2 := key r2 u2 h2
  have hh1 : ((convertToA2ui r1 u1).components.head?).map Component.id =
      some (msgIdFor r1 u1) := rfl
  have hh2 : ((convertToA2ui r2 u2).components.head?).map Component.id =
      some (msgIdFor r2 u2) := rfl
  refine ⟨e1, e2, ?_, ?_⟩
  · rw [hh1, hh2, e1, e2]
  · rw [hh1, e1]

/-- Witness for C9: two responses with message id "abc123" and
different texts and uuids produce the same fragment identifier
`msg_abc123`. -/
theorem c9_identifier_derived_from_message_id_witness :
    msgIdFor ⟨some "partial", "", some "answer", some "abc123"⟩ "x" =
      "msg_" ++ "abc123" ∧
    ((convertToA2ui ⟨some "partial", "", some "answer", some "abc123"⟩
        "x").components.head?).map Component.id =
      ((convertToA2ui ⟨some "full text", "", some "answer", some "abc123"⟩
        "y").components.head?).map Component.id := by
  have h := c9_identifier_derived_from_message_id
    ⟨some "partial", "", some "answer", some "abc123"⟩
    ⟨some "full text", "", some "answer", some "abc123"⟩
    "x" "y" "abc123" (by decide) rfl rfl
  exact ⟨h.1, h.2.2.1⟩

end A2AInspector
